import Mathlib

/-!
Verification development for `auto_record_and_pesq.py`.

The script's pipeline (voice-triggered capture, cross-correlation alignment,
PESQ scoring, output numbering) is embedded shallowly below.  Sample values
are modelled as exact rationals (`ℚ`) standing for the script's floating-point
amplitudes; machine arrays become Lean lists; the Python `ValueError`s raised
by the script (explicitly, or from inside numpy/scipy on degenerate inputs)
become an explicit `Except` error channel.  External collaborators (the sound
device, the WAV codecs, the PESQ oracle) are represented by their visible
interfaces only: the alignment and scoring functions return exactly the data
the script would hand to them.
-/

namespace AutoPESQ

/-- Zero-extended indexing of a sample list: `at0 l i` is `l[i]` when `i` is
in range and `0` otherwise (used to express correlation overlap sums). -/
def at0 (l : List ℚ) (i : ℤ) : ℚ :=
  if i < 0 then 0 else l.getD i.toNat 0

/-- The full linear cross-correlation value of `a` against `v` at lag `m`:
the inner product of `a` with `v` shifted right by `m` samples
(`∑ⱼ a[j]·v[j-m]`, out-of-range entries read as zero).  This is the value of
`scipy.signal.correlate(a, v, mode='full')` at array index `m + len(v) - 1`. -/
def corrAt (a v : List ℚ) (m : ℤ) : ℚ :=
  ∑ j ∈ Finset.range a.length, at0 a j * at0 v ((j : ℤ) - m)

/-- `scipy.signal.correlate(a, v, mode='full')` (line 75 of the script):
the list of correlation values at lags `-(len(v)-1) .. len(a)-1`, i.e. array
index `k` holds the correlation at lag `k - (len(v)-1)`. -/
def correlate (a v : List ℚ) : List ℚ :=
  (List.range (a.length + v.length - 1)).map
    (fun (k : ℕ) => corrAt a v ((k : ℤ) - ((v.length : ℤ) - 1)))

/-- `np.argmax` (line 76): the index of the first occurrence of the maximum
value of the list (`0` on the empty list, where numpy would raise). -/
def argmax : List ℚ → ℕ
  | [] => 0
  | [_] => 0
  | x :: y :: ys =>
    let j := argmax (y :: ys)
    if x < (y :: ys).getD j 0 then j + 1 else 0

/-- The Python exceptions the script can raise before reaching the external
oracle.  Both explicit `raise ValueError(...)` statements and the
`ValueError` surfacing from numpy/scipy on empty correlation input are
`ValueError`s; the payload records which message template was used. -/
inductive PyMsg where
  /-- line 72: sample-rate mismatch between reference file and recording -/
  | srMismatchAlign (refHz recHz : ℕ)
  /-- line 96: sample-rate mismatch in the scoring step -/
  | srMismatchPesq (refHz givenHz : ℕ)
  /-- the `ValueError` numpy/scipy raise when lines 75-76 run on an empty
  reference or captured array (the script has no explicit emptiness check) -/
  | emptyCorrInput
deriving DecidableEq

inductive PyError where
  | valueError (m : PyMsg)
deriving DecidableEq

/-- The Python exception type name: every error this script produces is a
`ValueError`. -/
def PyError.kind : PyError → String
  | valueError _ => "ValueError"

/-- Does the error carry one of the two sample-rate-mismatch messages (the
spec's `ConfigurationError`)? -/
def PyError.isSrMismatch : PyError → Bool
  | valueError (.srMismatchAlign _ _) => true
  | valueError (.srMismatchPesq _ _) => true
  | valueError .emptyCorrInput => false

/-- The reference data as loaded by `sf.read` (line 66): a 1-D float array
for a mono file, a frames-by-channels 2-D array otherwise. -/
inductive AudioData where
  | mono (samples : List ℚ)
  | multi (frames : List (List ℚ))

/-- Lines 68-69: `if ref.ndim > 1: ref = ref.mean(axis=1)` — a multi-channel
reference is averaged across channels; a mono one is used as is. -/
def downmix : AudioData → List ℚ
  | .mono s => s
  | .multi fr => fr.map (fun row => row.sum / (row.length : ℚ))

/-- Line 76: `lag = np.argmax(corr) - (len(ref) - 1)`. -/
def alignLag (recAudio ref : List ℚ) : ℤ :=
  (argmax (correlate recAudio ref) : ℤ) - ((ref.length : ℤ) - 1)

/-- Lines 82-88: trim the first `lag` samples when `lag > 0`, otherwise
prepend `abs(lag)` zeros, then truncate to the shorter of the two lengths
(`aligned[:min_len]`). -/
def resync (recAudio ref : List ℚ) : List ℚ :=
  let lag := alignLag recAudio ref
  let aligned :=
    if 0 < lag then recAudio.drop lag.toNat
    else List.replicate lag.natAbs 0 ++ recAudio
  aligned.take (min aligned.length ref.length)

/-- `align_audio` (lines 64-88): load and downmix the reference, reject a
sample-rate mismatch, correlate, derive `lag` and `offset_sec`, trim or
zero-pad the recording, truncate to the common length, and return the aligned
samples with the offset. -/
def align_audio (refData : AudioData) (srRef : ℕ) (recAudio : List ℚ)
    (recSr : ℕ) : Except PyError (List ℚ × ℚ) :=
  let ref := downmix refData
  if srRef ≠ recSr then
    Except.error (.valueError (.srMismatchAlign srRef recSr))
  else if recAudio.length = 0 ∨ ref.length = 0 then
    Except.error (.valueError .emptyCorrInput)
  else
    let offset : ℚ := ((alignLag recAudio ref : ℤ) : ℚ) / (srRef : ℚ)
    Except.ok (resync recAudio ref, offset)

/-- Truncation toward zero of a rational (the effect of a C float-to-int
conversion). -/
def truncQ (q : ℚ) : ℤ :=
  if 0 ≤ q then ⌊q⌋ else ⌈q⌉

/-- Line 104: `(deg_audio * 32767).astype(np.int16)` on one sample — scale by
32767, truncate toward zero, and wrap to the int16 two's-complement range
(numpy's cast performs no rounding and no clipping). -/
def toInt16 (x : ℚ) : ℤ :=
  Int.bmod (truncQ (x * 32767)) 65536

/-- `calculate_pesq` (lines 91-107): validate the sample rate, pick the mode,
quantize the degraded signal, and assemble the exact argument tuple
`(sample_rate, ref, deg_int16, mode)` handed to the external `pesq` oracle.
The reference samples are passed through exactly as loaded. -/
def calculate_pesq (refSamples : List ℤ) (fsRef : ℕ) (degAudio : List ℚ)
    (sampleRate : ℕ) : Except PyError (ℕ × List ℤ × List ℤ × String) :=
  if fsRef ≠ sampleRate then
    Except.error (.valueError (.srMismatchPesq fsRef sampleRate))
  else
    Except.ok (sampleRate, refSamples, degAudio.map toInt16,
      if sampleRate = 8000 then "nb" else "wb")

/-- Line 52: `np.abs(chunk).max()` — peak absolute amplitude of a frame
(`0` for an empty frame, where numpy would raise). -/
def framePeak (frame : List ℚ) : ℚ :=
  (frame.map (fun x => |x|)).foldl max 0

/-- Line 52: the loop condition `np.abs(chunk).max() > threshold`. -/
def triggers (frame : List ℚ) (threshold : ℚ) : Bool :=
  threshold < framePeak frame

/-- The observable behaviour of the polling loop at lines 49-53 after `n`
frames have been captured: the index of the first frame whose peak exceeds
the threshold, if one was seen.  (The Python loop blocks forever rather than
returning `none`.) -/
def firstTrigger (frames : ℕ → List ℚ) (threshold : ℚ) : ℕ → Option ℕ
  | 0 => none
  | n + 1 =>
    match firstTrigger frames threshold n with
    | some i => some i
    | none => if triggers (frames n) threshold then some n else none

/-- Python `str.replace(pat, rep)`: replace non-overlapping occurrences left
to right (fuelled recursion; the string length is always enough fuel). -/
def replaceAllAux (pat rep : List Char) : ℕ → List Char → List Char
  | _, [] => []
  | 0, s => s
  | fuel + 1, c :: cs =>
    if pat.length ≠ 0 ∧ (c :: cs).take pat.length = pat then
      rep ++ replaceAllAux pat rep fuel ((c :: cs).drop pat.length)
    else
      c :: replaceAllAux pat rep fuel cs

def replaceAll (pat rep s : List Char) : List Char :=
  replaceAllAux pat rep s.length s

/-- Python `str.split(sep)` for a non-empty separator. -/
def pySplitAux (sep : List Char) : ℕ → List Char → List Char → List (List Char)
  | 0, acc, s => [acc.reverse ++ s]
  | _ + 1, acc, [] => [acc.reverse]
  | fuel + 1, acc, c :: cs =>
    if sep.length ≠ 0 ∧ (c :: cs).take sep.length = sep then
      acc.reverse :: pySplitAux sep fuel [] ((c :: cs).drop sep.length)
    else
      pySplitAux sep fuel (c :: acc) cs

def pySplit (sep s : List Char) : List (List Char) :=
  pySplitAux sep s.length [] s

/-- The literal pattern stripped at line 27. -/
def degradedPat : List Char := "Degraded_".data

/-- Python `int(str)` restricted to the shapes arising here: an optional sign
followed by decimal digits; anything else raises (modelled as `none`, which
the `except: continue` at lines 29-30 skips). -/
def parseDigits (cs : List Char) : Option ℕ :=
  if cs ≠ [] ∧ cs.all (fun c => c.isDigit) then
    some (cs.foldl (fun a c => 10 * a + (c.toNat - 48)) 0)
  else
    none

def parsePyInt (cs : List Char) : Option ℤ :=
  match cs with
  | '-' :: rest => (parseDigits rest).map (fun n => -(n : ℤ))
  | '+' :: rest => (parseDigits rest).map (fun n => (n : ℤ))
  | _ => (parseDigits cs).map (fun n => (n : ℤ))

/-- Line 27: `f.replace("Degraded_", "").split("_")[0].split(".")[0]`. -/
def extractNumStr (f : List Char) : List Char :=
  (pySplit ['.'] ((pySplit ['_'] (replaceAll degradedPat [] f)).headD [])).headD []

/-- The `numbers` list accumulated at lines 23-30. -/
def parsedNumbers (files : List (List Char)) : List ℤ :=
  files.filterMap (fun f => parsePyInt (extractNumStr f))

/-- `get_next_number` (lines 18-31): `1` when no files match (or none parse),
otherwise `max(numbers) + 1`. -/
def get_next_number (files : List (List Char)) : ℤ :=
  if files.isEmpty then 1
  else
    match parsedNumbers files with
    | [] => 1
    | n :: ns => ns.foldl max n + 1

/-- Modelled from the spec: `best_index` as "the index of the
maximum-magnitude correlation value" (§4.2 step 2) and the lag derived from
it, for comparison with the script's signed `np.argmax`. -/
def magLag (recAudio ref : List ℚ) : ℤ :=
  (argmax ((correlate recAudio ref).map (fun x => |x|)) : ℤ)
    - ((ref.length : ℤ) - 1)

/-- Modelled from the spec: quantization as "round(sample * 32767) clipped to
the representable range" (§4.3), for comparison with the script's truncating
cast. -/
def specQuantize (x : ℚ) : ℤ :=
  max (-32768) (min 32767 (round (x * 32767)))

/-- Modelled from the spec: "the smallest such unused positive integer"
(claim C9), for comparison with the script's `max + 1`. -/
def smallestUnusedPos (ns : List ℤ) : ℤ :=
  match (List.range (ns.length + 1)).find? (fun i => !(ns.contains ((i : ℤ) + 1))) with
  | some i => (i : ℤ) + 1
  | none => (ns.length : ℤ) + 1

/-- `argmax` returns an in-range index attaining the maximum value, and every
strictly earlier entry is strictly below it (numpy's first-occurrence rule). -/
theorem argmax_spec : ∀ l : List ℚ, l ≠ [] →
    argmax l < l.length ∧
    (∀ j, j < l.length → l.getD j 0 ≤ l.getD (argmax l) 0) ∧
    (∀ j, j < argmax l → l.getD j 0 < l.getD (argmax l) 0)
  | [], h => absurd rfl h
  | [x], _ => by
    refine ⟨by simp [argmax], ?_, ?_⟩
    · intro j hj
      have hj0 : j = 0 := by simpa using hj
      subst hj0
      simp [argmax]
    · intro j hj
      simp [argmax] at hj
  | x :: y :: ys, _ => by
    obtain ⟨ih1, ih2, ih3⟩ := argmax_spec (y :: ys) (by simp)
    by_cases hx : x < (y :: ys).getD (argmax (y :: ys)) 0
    · have hgoal : argmax (x :: y :: ys) = argmax (y :: ys) + 1 := by
        simp only [argmax]
        rw [if_pos hx]
      rw [hgoal]
      refine ⟨by simpa using Nat.succ_lt_succ ih1, ?_, ?_⟩
      · intro j hj
        cases j with
        | zero => simpa using le_of_lt hx
        | succ k =>
          rw [List.getD_cons_succ, List.getD_cons_succ]
          exact ih2 k (by simpa using hj)
      · intro j hj
        cases j with
        | zero => simpa using hx
        | succ k =>
          rw [List.getD_cons_succ, List.getD_cons_succ]
          exact ih3 k (by omega)
    · have hgoal : argmax (x :: y :: ys) = 0 := by
        simp only [argmax]
        rw [if_neg hx]
      rw [hgoal]
      push_neg at hx
      refine ⟨by simp, ?_, ?_⟩
      · intro j hj
        cases j with
        | zero => simp
        | succ k =>
          rw [List.getD_cons_succ, List.getD_cons_zero]
          exact le_trans (ih2 k (by simpa using hj)) hx
      · intro j hj
        exact absurd hj (by omega)

/-- If entry `b` strictly dominates every other entry then `argmax` picks `b`. -/
theorem argmax_eq_of_strict (l : List ℚ) (b : ℕ) (hb : b < l.length)
    (hdom : ∀ j, j < l.length → j ≠ b → l.getD j 0 < l.getD b 0) :
    argmax l = b := by
  have hne : l ≠ [] := by
    intro h; rw [h] at hb; simp at hb
  obtain ⟨h1, h2, _⟩ := argmax_spec l hne
  by_contra hab
  have hlt := hdom (argmax l) h1 hab
  have hle := h2 b hb
  exact absurd (lt_of_le_of_lt hle hlt) (lt_irrefl _)

theorem correlate_length (a v : List ℚ) :
    (correlate a v).length = a.length + v.length - 1 := by
  rw [correlate, List.length_map, List.length_range]

theorem correlate_getD (a v : List ℚ) (k : ℕ) (hk : k < a.length + v.length - 1) :
    (correlate a v).getD k 0 = corrAt a v ((k : ℤ) - ((v.length : ℤ) - 1)) := by
  have hk' : k < (correlate a v).length := by rwa [correlate_length]
  rw [List.getD_eq_getElem _ _ hk']
  simp only [correlate, List.getElem_map, List.getElem_range]

theorem at0_neg (v : List ℚ) (i : ℤ) (h : i < 0) : at0 v i = 0 := by
  simp [at0, h]

theorem at0_ge (v : List ℚ) (i : ℤ) (h : (v.length : ℤ) ≤ i) : at0 v i = 0 := by
  rw [at0, if_neg (by omega)]
  exact List.getD_eq_default v 0 (by omega)

theorem at0_natCast (v : List ℚ) (k : ℕ) : at0 v (k : ℤ) = v.getD k 0 := by
  rw [at0, if_neg (by omega)]
  simp

theorem at0_outside (v : List ℚ) (i : ℤ) (h : i < 0 ∨ (v.length : ℤ) ≤ i) : at0 v i = 0 := by
  rcases h with h | h
  · exact at0_neg v i h
  · exact at0_ge v i h

/-- A sum over `List.range N` of an integer-indexed function is the sum over
the integer interval `[0, N-1]`. -/
theorem sum_range_eq_sum_Icc (f : ℤ → ℚ) (N : ℕ) :
    ∑ j ∈ Finset.range N, f (j : ℤ) = ∑ i ∈ Finset.Icc (0 : ℤ) ((N : ℤ) - 1), f i := by
  refine Finset.sum_nbij' (fun (j : ℕ) => (j : ℤ)) (fun (i : ℤ) => i.toNat) ?_ ?_ ?_ ?_ ?_
  · intro a ha
    simp only [Finset.mem_range] at ha
    simp only [Finset.mem_Icc]
    omega
  · intro a ha
    simp only [Finset.mem_Icc] at ha
    simp only [Finset.mem_range]
    omega
  · intro a _
    simp
  · intro a ha
    simp only [Finset.mem_Icc] at ha
    show ((a.toNat : ℤ)) = a
    omega
  · intro a _
    rfl

/-- The correlation overlap sum may be taken over any integer window covering
the index range of the left operand: all other terms vanish. -/
theorem corrAt_eq_win (a w : List ℚ) (t A B : ℤ) (hA : A ≤ 0)
    (hB : (a.length : ℤ) - 1 ≤ B) :
    corrAt a w t = ∑ i ∈ Finset.Icc A B, at0 a i * at0 w (i - t) := by
  rw [corrAt, sum_range_eq_sum_Icc (fun i => at0 a i * at0 w (i - t)) a.length]
  apply Finset.sum_subset
  · intro i hi
    simp only [Finset.mem_Icc] at hi ⊢
    omega
  · intro i hi hni
    simp only [Finset.mem_Icc] at hi hni
    rw [at0_outside a i (by omega), zero_mul]

/-- Shifting the summation variable of a window sum. -/
theorem sum_Icc_shift (F : ℤ → ℚ) (A B c : ℤ) :
    ∑ i ∈ Finset.Icc A B, F (i + c) = ∑ i ∈ Finset.Icc (A + c) (B + c), F i := by
  rw [← Finset.map_add_right_Icc A B c, Finset.sum_map]
  rfl

theorem sum_Icc_shift' (F : ℤ → ℚ) (A B c : ℤ) :
    ∑ i ∈ Finset.Icc A B, F i = ∑ i ∈ Finset.Icc (A - c) (B - c), F (i + c) := by
  rw [sum_Icc_shift F (A - c) (B - c) c,
    show A - c + c = A from by ring, show B - c + c = B from by ring]

/-- Autocorrelation is symmetric in the sign of the lag. -/
theorem corrAt_self_symm (v : List ℚ) (t : ℤ) : corrAt v v t = corrAt v v (-t) := by
  rw [corrAt_eq_win v v t (-(t.natAbs : ℤ)) ((v.length : ℤ) - 1 + t.natAbs)
    (by omega) (by omega)]
  rw [sum_Icc_shift' (fun i => at0 v i * at0 v (i - t)) _ _ t]
  rw [corrAt_eq_win v v (-t) (-(t.natAbs : ℤ) - t) ((v.length : ℤ) - 1 + t.natAbs - t)
    (by omega) (by omega)]
  apply Finset.sum_congr rfl
  intro i _
  have h1 : i + t - t = i := by ring
  have h2 : i - -t = i + t := by ring
  rw [h1, h2]
  ring

/-- Sum-of-squares identity: the window sum of `(v[i] - v[i-t])²` equals
`2·(corr(0) - corr(t))`. -/
theorem corrAt_sq_expand (v : List ℚ) (t : ℤ) :
    ∑ i ∈ Finset.Icc (-(t.natAbs : ℤ)) ((v.length : ℤ) - 1 + t.natAbs),
      (at0 v i - at0 v (i - t)) * (at0 v i - at0 v (i - t))
      = 2 * (corrAt v v 0 - corrAt v v t) := by
  have e1 : corrAt v v 0
      = ∑ i ∈ Finset.Icc (-(t.natAbs : ℤ)) ((v.length : ℤ) - 1 + t.natAbs),
          at0 v i * at0 v i := by
    rw [corrAt_eq_win v v 0 (-(t.natAbs : ℤ)) ((v.length : ℤ) - 1 + t.natAbs)
      (by omega) (by omega)]
    apply Finset.sum_congr rfl
    intro i _
    rw [sub_zero]
  have e2 : corrAt v v t
      = ∑ i ∈ Finset.Icc (-(t.natAbs : ℤ)) ((v.length : ℤ) - 1 + t.natAbs),
          at0 v i * at0 v (i - t) :=
    corrAt_eq_win v v t _ _ (by omega) (by omega)
  have e3 : corrAt v v 0
      = ∑ i ∈ Finset.Icc (-(t.natAbs : ℤ)) ((v.length : ℤ) - 1 + t.natAbs),
          at0 v (i - t) * at0 v (i - t) := by
    rw [corrAt_eq_win v v 0 (-(t.natAbs : ℤ) - t) ((v.length : ℤ) - 1 + t.natAbs - t)
      (by omega) (by omega)]
    rw [sum_Icc_shift' (fun i => at0 v i * at0 v (i - 0)) _ _ (-t)]
    rw [show -(t.natAbs : ℤ) - t - -t = -(t.natAbs : ℤ) from by ring,
      show (v.length : ℤ) - 1 + t.natAbs - t - -t = (v.length : ℤ) - 1 + t.natAbs from by ring]
    apply Finset.sum_congr rfl
    intro i _
    have h0 : i + -t = i - t := by ring
    rw [h0, sub_zero]
  have key : ∑ i ∈ Finset.Icc (-(t.natAbs : ℤ)) ((v.length : ℤ) - 1 + t.natAbs),
      (at0 v i - at0 v (i - t)) * (at0 v i - at0 v (i - t))
      = (∑ i ∈ Finset.Icc (-(t.natAbs : ℤ)) ((v.length : ℤ) - 1 + t.natAbs),
          at0 v i * at0 v i)
        - 2 * (∑ i ∈ Finset.Icc (-(t.natAbs : ℤ)) ((v.length : ℤ) - 1 + t.natAbs),
            at0 v i * at0 v (i - t))
        + (∑ i ∈ Finset.Icc (-(t.natAbs : ℤ)) ((v.length : ℤ) - 1 + t.natAbs),
            at0 v (i - t) * at0 v (i - t)) := by
    have hpt : ∀ i ∈ Finset.Icc (-(t.natAbs : ℤ)) ((v.length : ℤ) - 1 + t.natAbs),
        (at0 v i - at0 v (i - t)) * (at0 v i - at0 v (i - t))
          = (at0 v i * at0 v i - 2 * (at0 v i * at0 v (i - t)))
            + at0 v (i - t) * at0 v (i - t) := by
      intro i _
      ring
    rw [Finset.sum_congr rfl hpt, Finset.sum_add_distrib, Finset.sum_sub_distrib,
      ← Finset.mul_sum]
  rw [key, ← e1, ← e2, ← e3]
  ring

/-- Strict autocorrelation peak, positive lag: if `v` has a nonzero sample
then the correlation of `v` with itself at any positive lag is strictly below
the zero-lag value. -/
theorem corrAt_self_lt_pos (v : List ℚ) (hv : ∃ k, k < v.length ∧ v.getD k 0 ≠ 0)
    (t : ℤ) (ht : 0 < t) : corrAt v v t < corrAt v v 0 := by
  have hsq := corrAt_sq_expand v t
  have hpos : 0 < ∑ i ∈ Finset.Icc (-(t.natAbs : ℤ)) ((v.length : ℤ) - 1 + t.natAbs),
      (at0 v i - at0 v (i - t)) * (at0 v i - at0 v (i - t)) := by
    obtain ⟨k0, hk0len, hk0⟩ := hv
    set F : Finset ℕ := (Finset.range v.length).filter (fun k => v.getD k 0 ≠ 0) with hF
    have hFne : F.Nonempty := by
      refine ⟨k0, ?_⟩
      rw [hF, Finset.mem_filter, Finset.mem_range]
      exact ⟨hk0len, hk0⟩
    set i0 : ℕ := F.min' hFne with hi0
    have hi0mem : i0 ∈ F := Finset.min'_mem F hFne
    have hi0len : i0 < v.length := by
      have := hi0mem
      rw [hF, Finset.mem_filter, Finset.mem_range] at this
      exact this.1
    have hgi0 : v.getD i0 0 ≠ 0 := by
      have := hi0mem
      rw [hF, Finset.mem_filter] at this
      exact this.2
    have hzero : at0 v ((i0 : ℤ) - t) = 0 := by
      rcases lt_or_le ((i0 : ℤ) - t) 0 with hneg | hpos'
      · exact at0_neg v _ hneg
      · have hk' : (((i0 : ℤ) - t).toNat : ℤ) = (i0 : ℤ) - t := by omega
        have hklt : ((i0 : ℤ) - t).toNat < i0 := by omega
        have hknF : ((i0 : ℤ) - t).toNat ∉ F := by
          intro hmem
          exact absurd (Finset.min'_le F _ hmem) (by omega)
        have hklen : ((i0 : ℤ) - t).toNat < v.length := by omega
        rw [hF, Finset.mem_filter, Finset.mem_range] at hknF
        push_neg at hknF
        have := hknF hklen
        rw [← hk', at0_natCast]
        exact this
    apply Finset.sum_pos'
    · intro i _
      exact mul_self_nonneg _
    · refine ⟨(i0 : ℤ), ?_, ?_⟩
      · rw [Finset.mem_Icc]
        omega
      · rw [hzero, sub_zero]
        rw [at0_natCast]
        exact mul_self_pos.mpr hgi0
  linarith

/-- Strict autocorrelation peak: for a list with a nonzero sample, every
nonzero lag gives a strictly smaller autocorrelation than lag zero. -/
theorem corrAt_self_peak (v : List ℚ) (hv : ∃ k, k < v.length ∧ v.getD k 0 ≠ 0)
    (t : ℤ) (ht : t ≠ 0) : corrAt v v t < corrAt v v 0 := by
  rcases lt_or_gt_of_ne ht with hneg | hpos
  · rw [corrAt_self_symm]
    exact corrAt_self_lt_pos v hv (-t) (by omega)
  · exact corrAt_self_lt_pos v hv t hpos

/-- Indexing into a front-zero-padded list is indexing into the original list
at a shifted position. -/
theorem at0_pad (d : ℕ) (v : List ℚ) (i : ℤ) :
    at0 (List.replicate d (0 : ℚ) ++ v) i = at0 v (i - d) := by
  have hlen : (List.replicate d (0 : ℚ) ++ v).length = d + v.length := by
    simp
  rcases lt_or_le i 0 with h1 | h1
  · rw [at0_neg _ _ h1, at0_neg _ _ (by omega)]
  rcases lt_or_le i (d : ℤ) with h2 | h2
  · rw [at0_neg v _ (by omega), at0, if_neg (by omega)]
    have hlt : i.toNat < (List.replicate d (0 : ℚ) ++ v).length := by
      rw [hlen]; omega
    rw [List.getD_eq_getElem _ _ hlt]
    rw [List.getElem_append_left (by simp; omega)]
    simp
  · rcases lt_or_le i ((d : ℤ) + v.length) with h3 | h3
    · have hlt : i.toNat < (List.replicate d (0 : ℚ) ++ v).length := by
        rw [hlen]; omega
      have hlt2 : (i - d).toNat < v.length := by omega
      rw [at0, at0, if_neg (by omega), if_neg (by omega)]
      rw [List.getD_eq_getElem _ _ hlt, List.getD_eq_getElem _ _ hlt2]
      rw [List.getElem_append_right (by simp; omega)]
      congr 1
      simp only [List.length_replicate]
      omega
    · rw [at0_ge _ _ (by rw [hlen]; omega), at0_ge _ _ (by omega)]

/-- Cross-correlating a front-zero-padded copy against the original shifts the
lag axis by the pad length. -/
theorem corrAt_pad (d : ℕ) (v : List ℚ) (m : ℤ) :
    corrAt (List.replicate d (0 : ℚ) ++ v) v m = corrAt v v (m - d) := by
  have hlen : (List.replicate d (0 : ℚ) ++ v).length = d + v.length := by
    simp
  rw [corrAt_eq_win (List.replicate d (0 : ℚ) ++ v) v m 0 ((d : ℤ) + v.length - 1)
    (by omega) (by rw [hlen]; push_cast; omega)]
  have hbody : ∀ i ∈ Finset.Icc (0 : ℤ) ((d : ℤ) + v.length - 1),
      at0 (List.replicate d (0 : ℚ) ++ v) i * at0 v (i - m)
        = at0 v (i - d) * at0 v (i - m) := by
    intro i _
    rw [at0_pad]
  rw [Finset.sum_congr rfl hbody]
  rw [sum_Icc_shift' (fun i => at0 v (i - d) * at0 v (i - m)) 0 ((d : ℤ) + v.length - 1) (d : ℤ)]
  rw [show (0 : ℤ) - (d : ℤ) = -(d : ℤ) from by ring,
    show (d : ℤ) + v.length - 1 - (d : ℤ) = (v.length : ℤ) - 1 from by ring]
  rw [corrAt_eq_win v v (m - d) (-(d : ℤ)) ((v.length : ℤ) - 1) (by omega) (by omega)]
  apply Finset.sum_congr rfl
  intro i _
  have e1 : i + (d : ℤ) - d = i := by ring
  have e2 : i + (d : ℤ) - m = i - (m - d) := by ring
  rw [e1, e2]

/-- On matching sample rates and non-empty buffers, `align_audio` succeeds
and returns the resynchronized samples together with `lag / sample_rate`. -/
theorem align_audio_ok (refData : AudioData) (sr : ℕ) (rec : List ℚ)
    (h1 : rec.length ≠ 0) (h2 : (downmix refData).length ≠ 0) :
    align_audio refData sr rec sr
      = Except.ok (resync rec (downmix refData),
          ((alignLag rec (downmix refData) : ℤ) : ℚ) / (sr : ℚ)) := by
  simp only [align_audio]
  rw [if_neg (show ¬sr ≠ sr from by simp), if_neg (not_or.mpr ⟨h1, h2⟩)]

/-- numpy's argmax of the correlation of the `d`-zero-padded copy of `v`
against `v` lands exactly at array index `d + len(v) - 1`, provided `v` has a
nonzero sample. -/
theorem argmax_correlate_pad (v : List ℚ)
    (hv : ∃ k, k < v.length ∧ v.getD k 0 ≠ 0) (d : ℕ) :
    argmax (correlate (List.replicate d (0 : ℚ) ++ v) v) = d + v.length - 1 := by
  have hR : 1 ≤ v.length := by
    obtain ⟨k, hk, _⟩ := hv
    omega
  have hlen : (List.replicate d (0 : ℚ) ++ v).length = d + v.length := by simp
  apply argmax_eq_of_strict
  · rw [correlate_length, hlen]
    omega
  · intro j hj hne
    rw [correlate_length, hlen] at hj
    rw [correlate_getD _ _ j (by rw [hlen]; omega),
      correlate_getD _ _ (d + v.length - 1) (by rw [hlen]; omega)]
    rw [corrAt_pad, corrAt_pad]
    have hpeak : ((d + v.length - 1 : ℕ) : ℤ) - ((v.length : ℤ) - 1) - (d : ℤ) = 0 := by
      omega
    rw [hpeak]
    apply corrAt_self_peak v hv
    omega

/-- The lag the script computes for a `d`-zero-front-padded copy of `v`
against `v` is exactly `+d`. -/
theorem alignLag_pad (v : List ℚ) (hv : ∃ k, k < v.length ∧ v.getD k 0 ≠ 0)
    (d : ℕ) : alignLag (List.replicate d (0 : ℚ) ++ v) v = (d : ℤ) := by
  have hR : 1 ≤ v.length := by
    obtain ⟨k, hk, _⟩ := hv
    omega
  rw [alignLag, argmax_correlate_pad v hv d]
  omega

/-- The lag is always within `[-(len(ref)-1), len(captured)-1]`. -/
theorem alignLag_bounds (rec ref : List ℚ) (hrec : rec.length ≠ 0)
    (href : ref.length ≠ 0) :
    -((ref.length : ℤ) - 1) ≤ alignLag rec ref ∧
      alignLag rec ref ≤ (rec.length : ℤ) - 1 := by
  have hne : correlate rec ref ≠ [] := by
    intro h
    have := correlate_length rec ref
    rw [h] at this
    simp at this
    omega
  obtain ⟨h1, _, _⟩ := argmax_spec (correlate rec ref) hne
  rw [correlate_length] at h1
  rw [alignLag]
  omega

/-- Length of the resynchronized buffer:
`min (len ref) (len captured - lag)` (as integers; the lag may be negative,
in which case the buffer grew by the zero padding). -/
theorem resync_length (rec ref : List ℚ) (hrec : rec.length ≠ 0)
    (href : ref.length ≠ 0) :
    ((resync rec ref).length : ℤ)
      = min (ref.length : ℤ) ((rec.length : ℤ) - alignLag rec ref) := by
  obtain ⟨hlo, hhi⟩ := alignLag_bounds rec ref hrec href
  rw [resync]
  rcases lt_or_le 0 (alignLag rec ref) with hpos | hnonpos
  · rw [if_pos hpos]
    simp only [List.length_take, List.length_drop]
    omega
  · rw [if_neg (by omega)]
    simp only [List.length_take, List.length_append, List.length_replicate]
    omega

theorem framePeak_nonneg (frame : List ℚ) : 0 ≤ framePeak frame := by
  rw [framePeak]
  have h : ∀ (l : List ℚ) (a : ℚ), a ≤ l.foldl max a := by
    intro l
    induction l with
    | nil => intro a; simp
    | cons x xs ih =>
      intro a
      calc a ≤ max a x := le_max_left a x
        _ ≤ (xs.foldl max (max a x)) := ih (max a x)
  exact h _ 0

/-- If the loop has not fired within `n` polls, no frame among the first `n`
exceeded the threshold. -/
theorem firstTrigger_none (frames : ℕ → List ℚ) (t : ℚ) :
    ∀ n, firstTrigger frames t n = none →
      ∀ j, j < n → triggers (frames j) t = false := by
  intro n
  induction n with
  | zero => intro _ j hj; omega
  | succ m ih =>
    intro hnone j hj
    rw [firstTrigger] at hnone
    rcases hm : firstTrigger frames t m with _ | i
    · rw [hm] at hnone
      rcases Nat.lt_or_ge j m with hjm | hjm
      · exact ih hm j hjm
      · have hj' : j = m := by omega
        subst hj'
        by_contra hc
        have : triggers (frames j) t = true := by
          cases h : triggers (frames j) t
          · exact absurd h hc
          · rfl
        rw [this] at hnone
        simp at hnone
    · rw [hm] at hnone
      simp at hnone

/-- Full characterization of the polling loop: it returns `some i` within `n`
polls exactly when frame `i` is the first frame whose peak exceeds the
threshold. -/
theorem firstTrigger_some_iff (frames : ℕ → List ℚ) (t : ℚ) :
    ∀ n i, firstTrigger frames t n = some i ↔
      (i < n ∧ triggers (frames i) t = true ∧
        ∀ j, j < i → triggers (frames j) t = false) := by
  intro n
  induction n with
  | zero =>
    intro i
    constructor
    · intro h
      rw [firstTrigger] at h
      exact absurd h (by simp)
    · intro ⟨h, _, _⟩
      omega
  | succ m ih =>
    intro i
    constructor
    · intro h
      rw [firstTrigger] at h
      rcases hm : firstTrigger frames t m with _ | i'
      · rw [hm] at h
        by_cases htr : triggers (frames m) t = true
        · rw [if_pos htr] at h
          have hi : m = i := by
            injection h
          refine ⟨by omega, ?_, ?_⟩
          · rw [← hi]
            exact htr
          · intro j hj
            exact firstTrigger_none frames t m hm j (by omega)
        · rw [if_neg htr] at h
          exact absurd h (by simp)
      · rw [hm] at h
        have h' : i' = i := by
          injection h
        obtain ⟨h1', h2', h3'⟩ := (ih i').mp hm
        exact ⟨by omega, h' ▸ h2', h' ▸ h3'⟩
    · intro ⟨h1, h2, h3⟩
      rw [firstTrigger]
      rcases hm : firstTrigger frames t m with _ | i'
      · have hge : m ≤ i := by
          by_contra hc
          have := firstTrigger_none frames t m hm i (by omega)
          rw [h2] at this
          exact absurd this (by simp)
        have hi : i = m := by omega
        subst hi
        rw [if_pos h2]
      · obtain ⟨h1', h2', h3'⟩ := (ih i').mp hm
        have hii : i' = i := by
          rcases Nat.lt_trichotomy i' i with hlt | heq | hgt
          · have := h3 i' hlt
            rw [h2'] at this
            exact absurd this (by simp)
          · exact heq
          · have := h3' i hgt
            rw [h2] at this
            exact absurd this (by simp)
        rw [hii]

theorem framePeak_zeros (k : ℕ) : framePeak (List.replicate k (0 : ℚ)) = 0 := by
  rw [framePeak]
  have hmap : (List.replicate k (0 : ℚ)).map (fun x => |x|) = List.replicate k 0 := by
    rw [List.map_replicate]
    norm_num
  rw [hmap]
  induction k with
  | zero => simp
  | succ m ih =>
    rw [List.replicate_succ, List.foldl_cons]
    simpa using ih

theorem le_foldl_max (l : List ℤ) : ∀ a : ℤ, a ≤ l.foldl max a := by
  induction l with
  | nil =>
    intro a
    simp
  | cons x xs ih =>
    intro a
    rw [List.foldl_cons]
    exact le_trans (le_max_left a x) (ih (max a x))

theorem mem_le_foldl_max (l : List ℤ) : ∀ (a k : ℤ), k ∈ l → k ≤ l.foldl max a := by
  induction l with
  | nil =>
    intro a k hk
    simp at hk
  | cons x xs ih =>
    intro a k hk
    rw [List.foldl_cons]
    rcases List.mem_cons.mp hk with h | h
    · subst h
      exact le_trans (le_max_right a k) (le_foldl_max xs (max a k))
    · exact ih (max a x) k h

/-- `Int.bmod` (the int16 wrap) is the identity on the representable range. -/
theorem bmod_int16_eq (x : ℤ) (h1 : -32768 ≤ x) (h2 : x ≤ 32767) :
    Int.bmod x 65536 = x := by
  simp only [Int.bmod]
  split <;> omega

/-- Claim C2 (amended): the scorer's quantization maps each degraded sample
`x` to `x * 32767` truncated toward zero — not `round(x * 32767)` clipped —
and for every sample in `[-1, 1]` the quantized value lies in
`[-32768, 32767]` (in fact in `[-32767, 32767]`), so quantizing exactly `1.0`
and exactly `-1.0` does not overflow. -/
theorem C2_quantization_truncates_bounded (x : ℚ) (h1 : -1 ≤ x) (h2 : x ≤ 1) :
    ((-32768 ≤ toInt16 x ∧ toInt16 x ≤ 32767)
      ∧ toInt16 x = truncQ (x * 32767))
      ∧ toInt16 1 = 32767 ∧ toInt16 (-1) = -32767 := by
  have hq1 : x * 32767 ≤ 32767 := by nlinarith
  have hq2 : -32767 ≤ x * 32767 := by nlinarith
  have ht : -32767 ≤ truncQ (x * 32767) ∧ truncQ (x * 32767) ≤ 32767 := by
    rcases le_or_lt 0 (x * 32767) with hp | hn
    · rw [truncQ, if_pos hp]
      constructor
      · have h0 : (0 : ℤ) ≤ ⌊x * 32767⌋ := Int.floor_nonneg.mpr hp
        omega
      · have := Int.floor_le_floor (α := ℚ) hq1
        simpa using this
    · rw [truncQ, if_neg (not_le.mpr hn)]
      constructor
      · have hcast : ((-32767 : ℤ) : ℚ) = -32767 := by norm_num
        have hq2' : ((-32767 : ℤ) : ℚ) ≤ x * 32767 := by
          rw [hcast]
          exact hq2
        have hcl := Int.ceil_le_ceil (α := ℚ) hq2'
        rw [Int.ceil_intCast] at hcl
        exact hcl
      · have hcl := Int.ceil_le_ceil (α := ℚ) (le_of_lt hn)
        simp at hcl
        omega
  have hb : toInt16 x = truncQ (x * 32767) := by
    rw [toInt16]
    exact bmod_int16_eq _ (by omega) (by omega)
  have hc : ⌈(-32767 : ℚ)⌉ = -32767 := by
    rw [show ((-32767 : ℚ)) = ((-32767 : ℤ) : ℚ) from by norm_num]
    exact Int.ceil_intCast _
  refine ⟨⟨⟨by omega, by omega⟩, hb⟩, ?_, ?_⟩
  · norm_num [toInt16, truncQ]
    decide
  · norm_num [toInt16, truncQ, hc]
    decide

/-- Witness for C2 at the concrete sample `x = 1/2`. -/
theorem C2_witness :
    ((-32768 ≤ toInt16 (1 / 2) ∧ toInt16 (1 / 2) ≤ 32767)
      ∧ toInt16 (1 / 2) = truncQ ((1 / 2) * 32767))
      ∧ toInt16 1 = 32767 ∧ toInt16 (-1) = -32767 :=
  C2_quantization_truncates_bounded (1 / 2) (by norm_num) (by norm_num)

/-- Claim C2 counterexample: at the in-range sample `3/65534` (so
`x * 32767 = 3/2`) the script truncates to `1`, while the spec's
round-and-clip rule gives `2`. -/
theorem C2_counterexample :
    toInt16 (3 / 65534) = 1 ∧ specQuantize (3 / 65534) = 2
      ∧ toInt16 (3 / 65534) ≠ specQuantize (3 / 65534) := by
  have ha : toInt16 (3 / 65534) = 1 := by
    norm_num [toInt16, truncQ]
    decide
  have hb : specQuantize (3 / 65534) = 2 := by
    norm_num [specQuantize, round_eq]
  refine ⟨ha, hb, ?_⟩
  rw [ha, hb]
  decide

/-- Claim C7 (amended): the voice-activity wait returns exactly on the first
polled frame whose peak amplitude strictly exceeds the threshold, and a
negative threshold triggers on the first frame regardless of its contents.
(A threshold of exactly `0` does not trigger on an all-zero frame, since the
comparison is strict.) -/
theorem C7_trigger_first_frame (frames : ℕ → List ℚ) (t : ℚ) (n i : ℕ) :
    (firstTrigger frames t n = some i ↔
      (i < n ∧ triggers (frames i) t = true ∧
        ∀ j, j < i → triggers (frames j) t = false))
    ∧ (t < 0 → 0 < n → firstTrigger frames t n = some 0) := by
  refine ⟨firstTrigger_some_iff frames t n i, ?_⟩
  intro ht hn
  apply (firstTrigger_some_iff frames t n 0).mpr
  refine ⟨hn, ?_, fun j hj => absurd hj (by omega)⟩
  have hlt : t < framePeak (frames 0) :=
    lt_of_lt_of_le ht (framePeak_nonneg (frames 0))
  simp [triggers, hlt]

/-- Witness for C7: a negative threshold fires on the very first frame. -/
theorem C7_witness : firstTrigger (fun _ => [(1 : ℚ)]) (-1) 1 = some 0 :=
  (C7_trigger_first_frame (fun _ => [(1 : ℚ)]) (-1) 1 0).2 (by norm_num) (by norm_num)

/-- Claim C7 counterexample: at threshold exactly `0` an all-zero first frame
(800 samples, one 0.1 s poll at 8 kHz) does not trigger — the wait does not
return immediately, contradicting "a threshold of 0 or negative triggers
immediately on the first frame regardless of that frame's contents". -/
theorem C7_counterexample :
    firstTrigger (fun _ => List.replicate 800 (0 : ℚ)) 0 1 = none
      ∧ firstTrigger (fun _ => List.replicate 800 (0 : ℚ)) 0 1 ≠ some 0 := by
  have h : triggers (List.replicate 800 (0 : ℚ)) 0 = false := by
    simp only [triggers, framePeak_zeros, decide_eq_false_iff_not]
    exact lt_irrefl 0
  have hn : firstTrigger (fun _ => List.replicate 800 (0 : ℚ)) 0 1 = none := by
    rw [show (1 : ℕ) = 0 + 1 from rfl, firstTrigger, h]
    rfl
  exact ⟨hn, by rw [hn]; simp⟩

/-- Claim C9 (amended): the output index is `1` when no existing file yields
a number and otherwise `max(parsed numbers) + 1`; it therefore collides with
no existing file's number, but it is not the smallest unused positive
integer. -/
theorem C9_next_number (files : List (List Char)) :
    (parsedNumbers files = [] → get_next_number files = 1)
    ∧ (∀ n ns, parsedNumbers files = n :: ns →
        get_next_number files = ns.foldl max n + 1)
    ∧ (∀ k, k ∈ parsedNumbers files → k < get_next_number files) := by
  rcases files with _ | ⟨f, fs⟩
  · refine ⟨fun _ => rfl, ?_, ?_⟩
    · intro n ns h
      simp [parsedNumbers] at h
    · intro k hk
      simp [parsedNumbers] at hk
  · refine ⟨?_, ?_, ?_⟩
    · intro h
      simp only [get_next_number]
      rw [if_neg (by simp), h]
    · intro n ns h
      simp only [get_next_number]
      rw [if_neg (by simp), h]
    · intro k hk
      rcases hp : parsedNumbers (f :: fs) with _ | ⟨n, ns⟩
      · rw [hp] at hk
        simp at hk
      · rw [hp] at hk
        have hN : get_next_number (f :: fs) = ns.foldl max n + 1 := by
          simp only [get_next_number]
          rw [if_neg (by simp), hp]
        rw [hN]
        rcases List.mem_cons.mp hk with hkn | hkns
        · have := le_foldl_max ns n
          omega
        · have := mem_le_foldl_max ns n k hkns
          omega

/-- Witness for C9 on a directory containing `Degraded_2.wav`. -/
theorem C9_witness :
    get_next_number ["Degraded_2.wav".data] = List.foldl max 2 [] + 1 :=
  (C9_next_number ["Degraded_2.wav".data]).2.1 2 [] (by decide)

/-- Claim C9 counterexample: with only `Degraded_2.wav` present the script
chooses `3` (`max + 1`), while the smallest unused positive integer is `1`. -/
theorem C9_counterexample :
    get_next_number ["Degraded_2.wav".data] = 3
      ∧ smallestUnusedPos (parsedNumbers ["Degraded_2.wav".data]) = 1
      ∧ get_next_number ["Degraded_2.wav".data]
          ≠ smallestUnusedPos (parsedNumbers ["Degraded_2.wav".data]) := by
  refine ⟨by decide, by decide, by decide⟩

/-- Claim C1 (amended): for every non-empty reference and captured sequence
with equal sample rates, `align_audio` computes the full linear
cross-correlation, takes `best_index` as the index of the maximum *signed*
correlation value (first occurrence on ties — not the maximum-magnitude
value), and returns `lag_samples = best_index - (len ref - 1)` and
`offset_seconds = lag_samples / sample_rate`. -/
theorem C1_lag_from_signed_argmax (refData : AudioData) (sr : ℕ) (rec : List ℚ)
    (hrec : rec ≠ []) (href : downmix refData ≠ []) :
    (argmax (correlate rec (downmix refData)) < (correlate rec (downmix refData)).length
      ∧ (∀ j, j < (correlate rec (downmix refData)).length →
          (correlate rec (downmix refData)).getD j 0
            ≤ (correlate rec (downmix refData)).getD
                (argmax (correlate rec (downmix refData))) 0)
      ∧ (∀ j, j < argmax (correlate rec (downmix refData)) →
          (correlate rec (downmix refData)).getD j 0
            < (correlate rec (downmix refData)).getD
                (argmax (correlate rec (downmix refData))) 0))
    ∧ alignLag rec (downmix refData)
        = (argmax (correlate rec (downmix refData)) : ℤ)
            - (((downmix refData).length : ℤ) - 1)
    ∧ align_audio refData sr rec sr
        = Except.ok (resync rec (downmix refData),
            ((alignLag rec (downmix refData) : ℤ) : ℚ) / (sr : ℚ)) := by
  have h1 : rec.length ≠ 0 := fun hh => hrec (List.length_eq_zero.mp hh)
  have h2 : (downmix refData).length ≠ 0 := fun hh => href (List.length_eq_zero.mp hh)
  have hne : correlate rec (downmix refData) ≠ [] := by
    intro h
    have hl := correlate_length rec (downmix refData)
    rw [h] at hl
    simp at hl
    omega
  exact ⟨argmax_spec _ hne, rfl, align_audio_ok refData sr rec h1 h2⟩

/-- Witness for C1 at reference `[1]`, captured `[1]`, 8 kHz. -/
theorem C1_witness :
    alignLag [(1 : ℚ)] (downmix (.mono [(1 : ℚ)]))
        = (argmax (correlate [(1 : ℚ)] (downmix (.mono [(1 : ℚ)]))) : ℤ)
            - (((downmix (AudioData.mono [(1 : ℚ)])).length : ℤ) - 1)
      ∧ align_audio (.mono [(1 : ℚ)]) 8000 [(1 : ℚ)] 8000
          = Except.ok (resync [(1 : ℚ)] (downmix (.mono [(1 : ℚ)])),
              ((alignLag [(1 : ℚ)] (downmix (.mono [(1 : ℚ)])) : ℤ) : ℚ) / (8000 : ℚ)) := by
  have h := C1_lag_from_signed_argmax (.mono [(1 : ℚ)]) 8000 [(1 : ℚ)]
    (by simp) (by simp [downmix])
  exact ⟨h.2.1, h.2.2⟩

/-- Claim C1 counterexample: for captured `[-1, 1/2]` against reference `[1]`
the correlation is `[-1, 1/2]`; the spec's maximum-magnitude rule picks index
0 (lag 0), but the script's signed `np.argmax` picks index 1 (lag 1,
offset 1/8000). -/
theorem C1_counterexample :
    alignLag [(-1 : ℚ), 1 / 2] [(1 : ℚ)] = 1
      ∧ magLag [(-1 : ℚ), 1 / 2] [(1 : ℚ)] = 0
      ∧ alignLag [(-1 : ℚ), 1 / 2] [(1 : ℚ)] ≠ magLag [(-1 : ℚ), 1 / 2] [(1 : ℚ)]
      ∧ align_audio (.mono [(1 : ℚ)]) 8000 [(-1 : ℚ), 1 / 2] 8000
          = Except.ok ([(1 : ℚ) / 2], 1 / 8000) := by
  have ha : alignLag [(-1 : ℚ), 1 / 2] [(1 : ℚ)] = 1 := by
    norm_num [alignLag, correlate, corrAt, at0, List.range_succ, Finset.sum_range_succ,
      Finset.sum_range_zero, argmax]
  have hcorr : correlate [(-1 : ℚ), 1 / 2] [(1 : ℚ)] = [-1, 1 / 2] := by
    norm_num [correlate, corrAt, at0, List.range_succ, Finset.sum_range_succ,
      Finset.sum_range_zero]
  have habs : ([(-1 : ℚ), 1 / 2]).map (fun x => |x|) = [1, 1 / 2] := by
    have hab1 : |(-1 : ℚ)| = 1 := by norm_num
    have hab2 : |(1 : ℚ) / 2| = 1 / 2 := abs_of_nonneg (by norm_num)
    simp [hab1, hab2]
  have hb : magLag [(-1 : ℚ), 1 / 2] [(1 : ℚ)] = 0 := by
    rw [magLag, hcorr, habs]
    norm_num [argmax]
  refine ⟨ha, hb, by rw [ha, hb]; decide, ?_⟩
  norm_num [align_audio, resync, alignLag, correlate, corrAt, at0, List.range_succ,
    Finset.sum_range_succ, Finset.sum_range_zero, argmax, downmix]

/-- Claim C3: resynchronization trims `lag` leading samples when `lag > 0`
and prepends `abs lag` zeros otherwise, then truncates both buffers to the
shorter length; the aligned length equals
`min (len reference) (len captured - lag)` and never exceeds the reference
length. -/
theorem C3_length_invariant (refData : AudioData) (sr : ℕ) (rec : List ℚ)
    (hrec : rec ≠ []) (href : downmix refData ≠ []) :
    align_audio refData sr rec sr
        = Except.ok (resync rec (downmix refData),
            ((alignLag rec (downmix refData) : ℤ) : ℚ) / (sr : ℚ))
      ∧ ((resync rec (downmix refData)).length : ℤ)
          = min (((downmix refData).length : ℤ))
              ((rec.length : ℤ) - alignLag rec (downmix refData))
      ∧ (resync rec (downmix refData)).length ≤ (downmix refData).length := by
  have h1 : rec.length ≠ 0 := fun hh => hrec (List.length_eq_zero.mp hh)
  have h2 : (downmix refData).length ≠ 0 := fun hh => href (List.length_eq_zero.mp hh)
  have hlen := resync_length rec (downmix refData) h1 h2
  refine ⟨align_audio_ok refData sr rec h1 h2, hlen, ?_⟩
  omega

/-- Witness for C3 at reference `[1]`, captured `[1, 0]`, 8 kHz. -/
theorem C3_witness :
    align_audio (.mono [(1 : ℚ)]) 8000 [(1 : ℚ), 0] 8000
        = Except.ok (resync [(1 : ℚ), 0] (downmix (.mono [(1 : ℚ)])),
            ((alignLag [(1 : ℚ), 0] (downmix (.mono [(1 : ℚ)])) : ℤ) : ℚ) / (8000 : ℚ))
      ∧ ((resync [(1 : ℚ), 0] (downmix (.mono [(1 : ℚ)]))).length : ℤ)
          = min (((downmix (AudioData.mono [(1 : ℚ)])).length : ℤ))
              (([(1 : ℚ), 0].length : ℤ) - alignLag [(1 : ℚ), 0] (downmix (.mono [(1 : ℚ)])))
      ∧ (resync [(1 : ℚ), 0] (downmix (.mono [(1 : ℚ)]))).length
          ≤ (downmix (AudioData.mono [(1 : ℚ)])).length :=
  C3_length_invariant (.mono [(1 : ℚ)]) 8000 [(1 : ℚ), 0] (by simp) (by simp [downmix])

/-- Claim C4 (amended): for every reference containing a nonzero sample and
every `d > 0`, aligning the captured buffer formed by zero-padding the
reference with `d` zeros at the front recovers `lag_samples = +d` exactly
(the claim's `-d` has the wrong sign), with offset `d / sample_rate`. -/
theorem C4_known_delay_recovery (v : List ℚ) (d sr : ℕ) (hd : 0 < d)
    (hv : ∃ k, k < v.length ∧ v.getD k 0 ≠ 0) :
    alignLag (List.replicate d (0 : ℚ) ++ v) v = (d : ℤ)
      ∧ align_audio (.mono v) sr (List.replicate d (0 : ℚ) ++ v) sr
          = Except.ok (resync (List.replicate d (0 : ℚ) ++ v) v,
              ((d : ℕ) : ℚ) / (sr : ℚ)) := by
  have hlag := alignLag_pad v hv d
  have hR : v.length ≠ 0 := by
    obtain ⟨k, hk, _⟩ := hv
    omega
  refine ⟨hlag, ?_⟩
  rw [align_audio_ok (.mono v) sr (List.replicate d (0 : ℚ) ++ v)
    (by simp; omega) (by simpa [downmix] using hR)]
  simp only [downmix] at hlag ⊢
  rw [hlag]
  norm_num

/-- Witness for C4 at reference `[1]`, `d = 1`, 8 kHz. -/
theorem C4_witness :
    alignLag (List.replicate 1 (0 : ℚ) ++ [1]) [(1 : ℚ)] = (1 : ℤ)
      ∧ align_audio (.mono [(1 : ℚ)]) 8000 (List.replicate 1 (0 : ℚ) ++ [1]) 8000
          = Except.ok (resync (List.replicate 1 (0 : ℚ) ++ [1]) [(1 : ℚ)],
              ((1 : ℕ) : ℚ) / (8000 : ℚ)) :=
  C4_known_delay_recovery [(1 : ℚ)] 1 8000 (by norm_num) ⟨0, by norm_num, by simp⟩

/-- Claim C4 counterexample: with reference `[1]` and `d = 1` the captured
buffer is `[0, 1]` and the script returns `lag_samples = +1`, not `-1`. -/
theorem C4_counterexample :
    alignLag [(0 : ℚ), 1] [(1 : ℚ)] = 1
      ∧ (1 : ℤ) ≠ -1
      ∧ align_audio (.mono [(1 : ℚ)]) 8000 [(0 : ℚ), 1] 8000
          = Except.ok ([(1 : ℚ)], 1 / 8000) := by
  refine ⟨?_, by decide, ?_⟩
  · norm_num [alignLag, correlate, corrAt, at0, List.range_succ, Finset.sum_range_succ,
      Finset.sum_range_zero, argmax]
  · norm_num [align_audio, resync, alignLag, correlate, corrAt, at0, List.range_succ,
      Finset.sum_range_succ, Finset.sum_range_zero, argmax, downmix]

/-- Claim C5 (amended): aligning a reference against an unmodified copy of
itself yields `lag_samples = 0` and `offset_seconds = 0` for every non-empty
reference containing at least one nonzero sample.  (An all-zero buffer
instead yields `lag = -(len - 1)`; see the counterexample.) -/
theorem C5_self_alignment (v : List ℚ) (sr : ℕ)
    (hv : ∃ k, k < v.length ∧ v.getD k 0 ≠ 0) :
    alignLag v v = 0
      ∧ align_audio (.mono v) sr v sr = Except.ok (resync v v, 0) := by
  have hlag : alignLag v v = 0 := by
    have h := alignLag_pad v hv 0
    rw [List.replicate_zero, List.nil_append] at h
    simpa using h
  have hR : v.length ≠ 0 := by
    obtain ⟨k, hk, _⟩ := hv
    omega
  refine ⟨hlag, ?_⟩
  rw [align_audio_ok (.mono v) sr v hR (by simpa [downmix] using hR)]
  simp only [downmix] at hlag ⊢
  rw [hlag]
  norm_num

/-- Witness for C5 at reference `[1]`, 8 kHz. -/
theorem C5_witness :
    alignLag [(1 : ℚ)] [(1 : ℚ)] = 0
      ∧ align_audio (.mono [(1 : ℚ)]) 8000 [(1 : ℚ)] 8000
          = Except.ok (resync [(1 : ℚ)] [(1 : ℚ)], 0) :=
  C5_self_alignment [(1 : ℚ)] 8000 ⟨0, by norm_num, by simp⟩

/-- Claim C5 counterexample: the non-empty all-zero reference `[0, 0]`
aligned against itself yields `lag_samples = -1` and
`offset_seconds = -1/8000 ≠ 0`. -/
theorem C5_counterexample :
    alignLag [(0 : ℚ), 0] [(0 : ℚ), 0] = -1
      ∧ align_audio (.mono [(0 : ℚ), 0]) 8000 [(0 : ℚ), 0] 8000
          = Except.ok ([(0 : ℚ), 0], -1 / 8000)
      ∧ ((-1 : ℚ) / 8000) ≠ 0 := by
  refine ⟨?_, ?_, by norm_num⟩
  · norm_num [alignLag, correlate, corrAt, at0, List.range_succ, Finset.sum_range_succ,
      Finset.sum_range_zero, argmax]
  · norm_num [align_audio, resync, alignLag, correlate, corrAt, at0, List.range_succ,
      Finset.sum_range_succ, Finset.sum_range_zero, argmax, downmix]

/-- Claim C6: a sample-rate mismatch makes both the alignment and the scoring
step fail with the mismatch `ValueError` (the spec's `ConfigurationError`) —
no resampling path exists; conversely, with equal rates neither raises this
error (alignment can only fail with the empty-input error, which is not a
mismatch error, and scoring always reaches the oracle call). -/
theorem C6_sample_rate_mismatch (refData : AudioData) (srR srC : ℕ)
    (rec : List ℚ) (refI : List ℤ) (fs srP : ℕ) (deg : List ℚ) :
    (srR ≠ srC →
      align_audio refData srR rec srC
        = Except.error (.valueError (.srMismatchAlign srR srC)))
    ∧ (fs ≠ srP →
      calculate_pesq refI fs deg srP
        = Except.error (.valueError (.srMismatchPesq fs srP)))
    ∧ (srR = srC → ∀ e, align_audio refData srR rec srC = Except.error e →
        e.isSrMismatch = false)
    ∧ (fs = srP → ∃ out, calculate_pesq refI fs deg srP = Except.ok out) := by
  refine ⟨?_, ?_, ?_, ?_⟩
  · intro h
    simp only [align_audio]
    rw [if_pos h]
  · intro h
    simp only [calculate_pesq]
    rw [if_pos h]
  · intro h e he
    subst h
    simp only [align_audio] at he
    rw [if_neg (by simp)] at he
    by_cases hemp : rec.length = 0 ∨ (downmix refData).length = 0
    · rw [if_pos hemp] at he
      have he' : PyError.valueError PyMsg.emptyCorrInput = e := by
        injection he
      rw [← he']
      rfl
    · rw [if_neg hemp] at he
      exact absurd he (by simp)
  · intro h
    subst h
    simp only [calculate_pesq]
    rw [if_neg (by simp)]
    exact ⟨_, rfl⟩

/-- Witness for C6: a 16 kHz reference against an 8 kHz recording is rejected
by both steps, and equal rates let scoring proceed. -/
theorem C6_witness :
    align_audio (.mono [(1 : ℚ)]) 16000 [(1 : ℚ)] 8000
        = Except.error (.valueError (.srMismatchAlign 16000 8000))
      ∧ calculate_pesq [(1 : ℤ)] 16000 [(1 : ℚ)] 8000
          = Except.error (.valueError (.srMismatchPesq 16000 8000))
      ∧ (∃ out, calculate_pesq [(1 : ℤ)] 8000 [(1 : ℚ)] 8000 = Except.ok out) := by
  refine ⟨?_, ?_, ?_⟩
  · exact (C6_sample_rate_mismatch (.mono [(1 : ℚ)]) 16000 8000 [(1 : ℚ)]
      [(1 : ℤ)] 16000 8000 [(1 : ℚ)]).1 (by omega)
  · exact (C6_sample_rate_mismatch (.mono [(1 : ℚ)]) 16000 8000 [(1 : ℚ)]
      [(1 : ℤ)] 16000 8000 [(1 : ℚ)]).2.1 (by omega)
  · exact (C6_sample_rate_mismatch (.mono [(1 : ℚ)]) 16000 8000 [(1 : ℚ)]
      [(1 : ℤ)] 8000 8000 [(1 : ℚ)]).2.2.2 rfl

/-- Claim C8 (amended): alignment with an empty reference or captured buffer
always fails, but the failure is a `ValueError` — the same exception kind as
the sample-rate mismatch error (when the rates also differ, the mismatch
check even fires first) — not a distinct `AlignmentError` kind. -/
theorem C8_empty_input_fails (refData : AudioData) (srR srC : ℕ)
    (rec : List ℚ) (h : (downmix refData).length = 0 ∨ rec.length = 0) :
    ∃ e, align_audio refData srR rec srC = Except.error e
      ∧ e.kind = "ValueError" := by
  by_cases hsr : srR ≠ srC
  · refine ⟨.valueError (.srMismatchAlign srR srC), ?_, rfl⟩
    simp only [align_audio]
    rw [if_pos hsr]
  · push_neg at hsr
    subst hsr
    refine ⟨.valueError .emptyCorrInput, ?_, rfl⟩
    simp only [align_audio]
    rw [if_neg (by simp), if_pos (by tauto)]

/-- Witness for C8: an empty reference at matching rates fails with a
`ValueError`. -/
theorem C8_witness :
    ∃ e, align_audio (.mono ([] : List ℚ)) 8000 [(1 : ℚ)] 8000
        = Except.error e ∧ e.kind = "ValueError" :=
  C8_empty_input_fails (.mono []) 8000 8000 [(1 : ℚ)] (by simp [downmix])

/-- Claim C8 counterexample: the error produced for an empty reference buffer
has exactly the same exception kind (`ValueError`) as the sample-rate
mismatch error — the claimed distinct `AlignmentError` kind does not exist in
the code. -/
theorem C8_counterexample :
    align_audio (.mono ([] : List ℚ)) 8000 [(1 : ℚ)] 8000
        = Except.error (.valueError .emptyCorrInput)
      ∧ align_audio (.mono [(1 : ℚ)]) 16000 [(1 : ℚ)] 8000
          = Except.error (.valueError (.srMismatchAlign 16000 8000))
      ∧ (PyError.valueError .emptyCorrInput).kind
          = (PyError.valueError (.srMismatchAlign 16000 8000)).kind := by
  refine ⟨?_, ?_, rfl⟩
  · simp only [align_audio]
    rw [if_neg (by simp), if_pos (by simp [downmix])]
  · simp only [align_audio]
    rw [if_pos (by omega)]

/-- Claim C10: a multi-channel reference is averaged across channels into
mono before correlating (alignment does not fail because of the extra
channels), while the scoring step passes the reference samples to the oracle
exactly as loaded — no channel downmix and no truncation to the degraded
buffer's length. -/
theorem C10_downmix_and_passthrough (rows : List (List ℚ)) (srR srC : ℕ)
    (rec : List ℚ) (refI : List ℤ) (fs : ℕ) (deg : List ℚ) :
    align_audio (.multi rows) srR rec srC
        = align_audio (.mono (rows.map (fun row => row.sum / (row.length : ℚ))))
            srR rec srC
      ∧ (rows ≠ [] → rec ≠ [] → srR = srC →
          ∃ res, align_audio (.multi rows) srR rec srC = Except.ok res)
      ∧ calculate_pesq refI fs deg fs
          = Except.ok (fs, refI, deg.map toInt16,
              if fs = 8000 then "nb" else "wb") := by
  refine ⟨rfl, ?_, ?_⟩
  · intro h1 h2 h3
    subst h3
    refine ⟨_, align_audio_ok (.multi rows) srR rec ?_ ?_⟩
    · intro hc
      exact h2 (List.length_eq_zero.mp hc)
    · intro hc
      simp only [downmix, List.length_map] at hc
      exact h1 (List.length_eq_zero.mp hc)
  · simp only [calculate_pesq]
    rw [if_neg (by simp)]

/-- Witness for C10 with a two-channel reference and matched 8 kHz rates. -/
theorem C10_witness :
    align_audio (.multi [[(1 : ℚ)], [(1 : ℚ)]]) 8000 [(1 : ℚ)] 8000
        = align_audio
            (.mono ([[(1 : ℚ)], [(1 : ℚ)]].map (fun row => row.sum / (row.length : ℚ))))
            8000 [(1 : ℚ)] 8000
      ∧ (∃ res, align_audio (.multi [[(1 : ℚ)], [(1 : ℚ)]]) 8000 [(1 : ℚ)] 8000
          = Except.ok res)
      ∧ calculate_pesq [(1 : ℤ)] 8000 [(1 : ℚ)] 8000
          = Except.ok (8000, [(1 : ℤ)], [(1 : ℚ)].map toInt16,
              if 8000 = 8000 then "nb" else "wb") := by
  have h := C10_downmix_and_passthrough [[(1 : ℚ)], [(1 : ℚ)]] 8000 8000
    [(1 : ℚ)] [(1 : ℤ)] 8000 [(1 : ℚ)]
  exact ⟨h.1, h.2.1 (by simp) (by simp) rfl, h.2.2⟩

end AutoPESQ
